import Mathlib

/-!
Verification of the queue/transport state machine of the `useAudioPlayer`
hook (audio player core of the Spotify-clone repository).

The hook's `AudioPlayerState` record and every operation it exposes through
`AudioPlayerContext` are embedded as pure Lean functions on `PlayerState`.
Machine numbers of the source (JS numbers holding integers: queue indices,
progress, volume) are modelled as `Int`; the queue is a `List Track`.
Asynchronous operations are modelled atomically (the hook runs on a single
logical thread and every claim is about the state after an operation has
fully settled); the nondeterministic outcomes of the two awaited
collaborators (preview resolution, engine play) are passed in as explicit
parameters where they influence the resulting state.
-/

set_option maxHeartbeats 1000000

namespace SpotifyClone

/-- A track as the player core sees it: an identity and an optional playable
resource reference (`ITrack.id` and `ITrack.preview_url` in the source). -/
structure Track where
  id : String
  preview_url : Option String
deriving DecidableEq, Repr

/-- The repeat mode: `'off' | 'one' | 'all'`. -/
inductive RepeatMode where
  | off
  | one
  | all
deriving DecidableEq, Repr

/-- Modelled from the spec: the metadata-enrichment collaborator
(`mcpAudioService.enhanceTrackWithPreview`, which is not part of the core
source) asynchronously resolves a playable resource reference for a track;
per the spec it may attach the resolved reference to the core's own copy of
the track but never alters the track's identity.  `Resolve.keep` covers a
thrown/failed resolution and a resolution that attaches nothing usable
(both leave the published track as it was), `Resolve.url u` a resolution
that attaches the reference `u`. -/
inductive Resolve where
  | keep
  | url (u : String)
deriving DecidableEq, Repr

/-- Truthiness of `track.preview_url` in the source (`undefined`, `null` and
the empty string are falsy; `preview_url && preview_url.length > 0` is the
same predicate). -/
def hasPreview (t : Track) : Bool :=
  match t.preview_url with
  | some u => u != ""
  | none => false

/-- The track published as current by `loadTrack` once resolution settles:
if the track already carries a usable reference, resolution is skipped;
otherwise the outcome of `enhanceTrackWithPreview` decides it. -/
def enhanceModel (t : Track) (res : Resolve) : Track :=
  if hasPreview t then t
  else
    match res with
    | Resolve.keep => t
    | Resolve.url u => { t with preview_url := some u }

/-- JS array indexing `l[i]` for a possibly negative index: out of range
(including any negative index) yields `undefined`, modelled as `none`. -/
def listGetI {α : Type} (l : List α) (i : Int) : Option α :=
  if 0 ≤ i then l[i.toNat]? else none

/-- `Array.prototype.findIndex`: the index of the first element satisfying
the predicate, or `-1` when there is none. -/
def findIndexJs {α : Type} (p : α → Bool) : List α → Int
  | [] => -1
  | a :: l =>
    if p a then 0
    else
      let r := findIndexJs p l
      if r = -1 then -1 else r + 1

/-- `l.splice(n, 0, a)` for a non-negative, already clamped position `n`:
insert `a` so that it ends up at position `n`. -/
def spliceInsert {α : Type} (l : List α) (n : Nat) (a : α) : List α :=
  l.take n ++ a :: l.drop n

/-- The start-index normalisation JS `splice` applies: a negative index
counts from the end (floored at 0), a non-negative one is clamped to the
length. -/
def jsSpliceIdx (len : Nat) (i : Int) : Nat :=
  if i < 0 then ((len : Int) + i).toNat else min i.toNat len

/-- `Array.prototype.slice(start)`: a negative start counts from the end
(floored at 0). -/
def jsSlice {α : Type} (l : List α) (start : Int) : List α :=
  if start < 0 then l.drop ((l.length : Int) + start).toNat else l.drop start.toNat

/-- The `AudioPlayerState` record of the hook. -/
structure PlayerState where
  currentTrack : Option Track
  currentIndex : Int
  queue : List Track
  isPlaying : Bool
  progress : Int
  volume : Int
  isShuffled : Bool
  repeatMode : RepeatMode
  isMinimized : Bool
  isQueueOpen : Bool
deriving DecidableEq, Repr

/-- The initial state passed to `useState`. -/
def initState : PlayerState :=
  { currentTrack := none
    currentIndex := -1
    queue := []
    isPlaying := false
    progress := 0
    volume := 80
    isShuffled := false
    repeatMode := RepeatMode.off
    isMinimized := false
    isQueueOpen := false }

/-- `loadTrack(track, shouldPlay)`: publishes the track as current with
`isPlaying = shouldPlay` and `progress = 0`, then (once resolution settles)
republishes the possibly enhanced track.  The engine/simulation side
effects carry no further state change at this point. -/
def loadTrack (t : Track) (shouldPlay : Bool) (res : Resolve) (s : PlayerState) :
    PlayerState :=
  { s with
    currentTrack := some (enhanceModel t res)
    isPlaying := shouldPlay
    progress := 0 }

/-- `goToIndex(nextIndex, autoPlay)`: `null` or an out-of-range index pauses
(`isPlaying := false`, `progress := 0`) and leaves everything else as it
was; a valid index selects that queue slot and, when `autoPlay`, hands the
selected track to `loadTrack`. -/
def goToIndex (nextIndex : Option Int) (autoPlay : Bool) (res : Resolve)
    (s : PlayerState) : PlayerState :=
  match nextIndex with
  | none => { s with isPlaying := false, progress := 0 }
  | some i =>
    if h : i < 0 ∨ (s.queue.length : Int) ≤ i then
      { s with isPlaying := false, progress := 0 }
    else
      have hn : i.toNat < s.queue.length := by push_neg at h; omega
      let nextTrack := s.queue.get ⟨i.toNat, hn⟩
      let s1 : PlayerState :=
        { s with
          currentIndex := i
          currentTrack := some nextTrack
          isPlaying := autoPlay
          progress := 0 }
      if autoPlay then loadTrack nextTrack true res s1 else s1

/-- `skipNext()`.  `r` is the value of
`Math.floor(Math.random() * queue.length)` consulted when shuffled. -/
def skipNext (r : Nat) (res : Resolve) (s : PlayerState) : PlayerState :=
  if s.queue.length = 0 then s
  else if s.repeatMode = RepeatMode.one ∧ 0 ≤ s.currentIndex then
    goToIndex (some s.currentIndex) true res s
  else
    let n0 : Int := if s.isShuffled then (r : Int) else s.currentIndex + 1
    let n1 : Int :=
      if s.isShuffled ∧ 1 < s.queue.length ∧ n0 = s.currentIndex then
        (n0 + 1) % (s.queue.length : Int)
      else n0
    if (s.queue.length : Int) ≤ n1 then
      if s.repeatMode = RepeatMode.all then goToIndex (some 0) true res s
      else goToIndex none true res s
    else goToIndex (some n1) true res s

/-- `skipPrevious()`.  `r` as in `skipNext`. -/
def skipPrevious (r : Nat) (res : Resolve) (s : PlayerState) : PlayerState :=
  if s.queue.length = 0 then s
  else
    let p0 : Int := if s.isShuffled then (r : Int) else s.currentIndex - 1
    if p0 < 0 then
      if s.repeatMode = RepeatMode.all then
        goToIndex (some ((s.queue.length : Int) - 1)) true res s
      else goToIndex none true res s
    else goToIndex (some p0) true res s

/-- `togglePlay()`: a no-op without a current track, otherwise flips
`isPlaying` (the engine/simulation effects carry no further state). -/
def togglePlay (s : PlayerState) : PlayerState :=
  if s.currentTrack = none then s
  else { s with isPlaying := !s.isPlaying }

/-- `playTrack(track)`: toggle play/pause when the track is already current
(compared by id), otherwise replace the queue with the single track, select
it and load it with playback enabled. -/
def playTrack (t : Track) (res : Resolve) (s : PlayerState) : PlayerState :=
  if s.currentTrack.map Track.id = some t.id then togglePlay s
  else
    loadTrack t true res
      { s with
        queue := [t]
        currentIndex := 0
        currentTrack := some t
        isPlaying := true
        progress := 0 }

/-- `enqueue(track)`: append to the end; when nothing is selected the index
becomes 0 and the appended track becomes current. -/
def enqueue (t : Track) (s : PlayerState) : PlayerState :=
  { s with
    queue := s.queue ++ [t]
    currentIndex := if s.currentIndex = -1 then 0 else s.currentIndex
    currentTrack := some (s.currentTrack.getD t) }

/-- `enqueueNext(track)`: with no selection, replace the queue by the single
track and select it; otherwise splice the track in right after the current
index. -/
def enqueueNext (t : Track) (s : PlayerState) : PlayerState :=
  if s.currentIndex = -1 then
    { s with queue := [t], currentIndex := 0, currentTrack := some t }
  else
    { s with
      queue := spliceInsert s.queue (jsSpliceIdx s.queue.length (s.currentIndex + 1)) t }

/-- `seek(position)`: updates `progress` immediately (engine repositioning
carries no further state change). -/
def seek (position : Int) (s : PlayerState) : PlayerState :=
  { s with progress := position }

/-- `setVolume(volume)`. -/
def setVolume (v : Int) (s : PlayerState) : PlayerState :=
  { s with volume := v }

/-- `toggleShuffle()`. -/
def toggleShuffle (s : PlayerState) : PlayerState :=
  { s with isShuffled := !s.isShuffled }

/-- `toggleRepeat()`: cycles off → one → all → off. -/
def toggleRepeat (s : PlayerState) : PlayerState :=
  { s with
    repeatMode :=
      match s.repeatMode with
      | RepeatMode.off => RepeatMode.one
      | RepeatMode.one => RepeatMode.all
      | RepeatMode.all => RepeatMode.off }

/-- `toggleMinimize()`. -/
def toggleMinimize (s : PlayerState) : PlayerState :=
  { s with isMinimized := !s.isMinimized }

/-- `openQueuePanel()`. -/
def openQueuePanel (s : PlayerState) : PlayerState :=
  { s with isQueueOpen := true }

/-- `closeQueuePanel()`. -/
def closeQueuePanel (s : PlayerState) : PlayerState :=
  { s with isQueueOpen := false }

/-- `toggleQueuePanel()`. -/
def toggleQueuePanel (s : PlayerState) : PlayerState :=
  { s with isQueueOpen := !s.isQueueOpen }

/-- `clearQueue()`: empties the queue and selection, stops playback and
resets progress, leaving every other field as it was. -/
def clearQueue (s : PlayerState) : PlayerState :=
  { s with
    queue := []
    currentIndex := -1
    currentTrack := none
    isPlaying := false
    progress := 0 }

/-- `closePlayer()`: resets the whole state to the initial record. -/
def closePlayer (_s : PlayerState) : PlayerState :=
  initState

/-- The `(nextIndex, nextTrack)` pair `removeFromQueue` computes once the
first matching index and the filtered queue are known (the mutable
`nextIndex`/`nextTrack` locals of the source). -/
def removeNextSel (index : Int) (nextQueue : List Track) (s : PlayerState) :
    Int × Option Track :=
  if index = s.currentIndex then
    if nextQueue.length = 0 then (-1, none)
    else if (nextQueue.length : Int) ≤ s.currentIndex then
      ((nextQueue.length : Int) - 1, listGetI nextQueue ((nextQueue.length : Int) - 1))
    else (s.currentIndex, listGetI nextQueue s.currentIndex)
  else if index < s.currentIndex then
    (max (s.currentIndex - 1) 0, listGetI nextQueue (max (s.currentIndex - 1) 0))
  else (s.currentIndex, s.currentTrack)

/-- `removeFromQueue(trackId)`: no-op when no queue entry has the id;
otherwise filters the queue by id, rebases index/track via `removeNextSel`,
and reloads the remaining current track (with the pre-call `isPlaying`)
when one exists. -/
def removeFromQueue (trackId : String) (res : Resolve) (s : PlayerState) :
    PlayerState :=
  let index := findIndexJs (fun t => t.id == trackId) s.queue
  if index = -1 then s
  else
    let nextQueue := s.queue.filter (fun t => !(t.id == trackId))
    let sel := removeNextSel index nextQueue s
    let s1 : PlayerState :=
      { s with
        queue := nextQueue
        currentIndex := sel.1
        currentTrack := sel.2
        isPlaying := if sel.2.isSome then s.isPlaying else false
        progress := if sel.2.isSome then s.progress else 0 }
    match sel.2 with
    | some nt => loadTrack nt s.isPlaying res s1
    | none => s1

/-- `reorderQueue(from, to)`: no-op when the indices are equal, negative or
out of bounds; otherwise a single-element relocation with current-index
rebasing. -/
def reorderQueue (fromIdx toIdx : Int) (s : PlayerState) : PlayerState :=
  if h : fromIdx = toIdx ∨ fromIdx < 0 ∨ toIdx < 0 ∨
      (s.queue.length : Int) ≤ fromIdx ∨ (s.queue.length : Int) ≤ toIdx then s
  else
    have hf : fromIdx.toNat < s.queue.length := by push_neg at h; omega
    let moved := s.queue.get ⟨fromIdx.toNat, hf⟩
    let updated := spliceInsert (s.queue.eraseIdx fromIdx.toNat) toIdx.toNat moved
    let nextIndex : Int :=
      if fromIdx = s.currentIndex then toIdx
      else if fromIdx < s.currentIndex ∧ s.currentIndex ≤ toIdx then
        s.currentIndex - 1
      else if s.currentIndex < fromIdx ∧ toIdx ≤ s.currentIndex then
        s.currentIndex + 1
      else s.currentIndex
    { s with queue := updated, currentIndex := nextIndex }

/-- `playFromQueue(index)`. -/
def playFromQueue (i : Int) (res : Resolve) (s : PlayerState) : PlayerState :=
  goToIndex (some i) true res s

/-- The `upNext` snapshot the hook exposes: `queue.slice(currentIndex + 1)`. -/
def upNext (s : PlayerState) : List Track :=
  jsSlice s.queue (s.currentIndex + 1)

/-! ### The synthetic progress clock (`startSimulation`) -/

/-- The state the synthetic clock touches: the `simulatedProgress` closure
counter, whether the interval is installed, and the `progress`/`isPlaying`
fields of the player state it publishes into. -/
structure SimState where
  simulatedProgress : Int
  running : Bool
  progress : Int
  isPlaying : Bool
deriving DecidableEq, Repr

/-- `startSimulation()`: a fresh counter at 0 with the interval installed;
the published fields are whatever they were. -/
def startSimulation (progress : Int) (isPlaying : Bool) : SimState :=
  { simulatedProgress := 0, running := true, progress := progress, isPlaying := isPlaying }

/-- One 250ms tick of the synthetic clock: increments the counter, publishes
it as progress, and on reaching 100 clears the interval and publishes
`isPlaying := false`, `progress := 0`. -/
def simTick (st : SimState) : SimState :=
  if st.running then
    let p := st.simulatedProgress + 1
    if 100 ≤ p then
      { simulatedProgress := p, running := false, progress := 0, isPlaying := false }
    else
      { simulatedProgress := p, running := st.running, progress := p,
        isPlaying := st.isPlaying }
  else st

/-- `n` consecutive ticks. -/
def simRun : Nat → SimState → SimState
  | 0, st => st
  | n + 1, st => simRun n (simTick st)

/-! ### Playback-engine side effects of `removeFromQueue` -/

/-- Commands issued to the playback engine (`audioRef.current`): `pause()`
and the start sequence (`src` assignment, volume application, `play()`). -/
inductive EngineCmd where
  | pause
  | start
deriving DecidableEq, Repr

/-- The engine commands `loadTrack(track, shouldPlay)` issues: the start
sequence exactly when the settled track carries a usable reference and
playback was requested; every other path touches only the synthetic clock. -/
def loadTrackEngineEffects (t : Track) (shouldPlay : Bool) (res : Resolve) :
    List EngineCmd :=
  if shouldPlay ∧ hasPreview (enhanceModel t res) then [EngineCmd.start] else []

/-- The engine commands `removeFromQueue(trackId)` issues: none when no
entry matches (the early return precedes every engine access); otherwise
either the reload of the surviving current track or a bare `pause()`. -/
def removeFromQueueEngineEffects (trackId : String) (res : Resolve)
    (s : PlayerState) : List EngineCmd :=
  let index := findIndexJs (fun t => t.id == trackId) s.queue
  if index = -1 then []
  else
    let nextQueue := s.queue.filter (fun t => !(t.id == trackId))
    let sel := removeNextSel index nextQueue s
    match sel.2 with
    | some nt => loadTrackEngineEffects nt s.isPlaying res
    | none => [EngineCmd.pause]

/-! ### The transition relation of the exposed operations -/

/-- One invocation of an operation exposed through `AudioPlayerContext`.
`r` stands for `Math.floor(Math.random() * queue.length)` (within the
queue whenever the queue is non-empty), `res` for the settle outcome of
the asynchronous preview resolution of the loaded track.  `seek` is only
invoked with positions in [0, 100] (the progress-bar range).
`toggleFavorite` has no state effect and is omitted. -/
inductive Step : PlayerState → PlayerState → Prop where
  | ofPlayTrack (s : PlayerState) (t : Track) (res : Resolve) : Step s (playTrack t res s)
  | ofEnqueue (s : PlayerState) (t : Track) : Step s (enqueue t s)
  | ofEnqueueNext (s : PlayerState) (t : Track) : Step s (enqueueNext t s)
  | ofTogglePlay (s : PlayerState) : Step s (togglePlay s)
  | ofSkipNext (s : PlayerState) (r : Nat) (res : Resolve)
      (hr : r < s.queue.length ∨ s.queue.length = 0) : Step s (skipNext r res s)
  | ofSkipPrevious (s : PlayerState) (r : Nat) (res : Resolve)
      (hr : r < s.queue.length ∨ s.queue.length = 0) : Step s (skipPrevious r res s)
  | ofSeek (s : PlayerState) (p : Int) (hp : 0 ≤ p ∧ p ≤ 100) : Step s (seek p s)
  | ofSetVolume (s : PlayerState) (v : Int) : Step s (setVolume v s)
  | ofToggleShuffle (s : PlayerState) : Step s (toggleShuffle s)
  | ofToggleRepeat (s : PlayerState) : Step s (toggleRepeat s)
  | ofToggleMinimize (s : PlayerState) : Step s (toggleMinimize s)
  | ofOpenQueuePanel (s : PlayerState) : Step s (openQueuePanel s)
  | ofCloseQueuePanel (s : PlayerState) : Step s (closeQueuePanel s)
  | ofToggleQueuePanel (s : PlayerState) : Step s (toggleQueuePanel s)
  | ofClearQueue (s : PlayerState) : Step s (clearQueue s)
  | ofRemoveFromQueue (s : PlayerState) (tid : String) (res : Resolve) :
      Step s (removeFromQueue tid res s)
  | ofReorderQueue (s : PlayerState) (fromIdx toIdx : Int) :
      Step s (reorderQueue fromIdx toIdx s)
  | ofPlayFromQueue (s : PlayerState) (i : Int) (res : Resolve) :
      Step s (playFromQueue i res s)
  | ofClosePlayer (s : PlayerState) : Step s (closePlayer s)

/-- States reachable from the initial state by the exposed operations. -/
def Reachable (s : PlayerState) : Prop := Relation.ReflTransGen Step initState s

/-- As `Step`, but the two insertion operations (`enqueue`, `enqueueNext`)
only ever insert a track whose id is not already present in the queue
(runs without duplicate track ids). -/
inductive StepU : PlayerState → PlayerState → Prop where
  | ofPlayTrack (s : PlayerState) (t : Track) (res : Resolve) : StepU s (playTrack t res s)
  | ofEnqueue (s : PlayerState) (t : Track) (hid : ∀ u ∈ s.queue, u.id ≠ t.id) :
      StepU s (enqueue t s)
  | ofEnqueueNext (s : PlayerState) (t : Track) (hid : ∀ u ∈ s.queue, u.id ≠ t.id) :
      StepU s (enqueueNext t s)
  | ofTogglePlay (s : PlayerState) : StepU s (togglePlay s)
  | ofSkipNext (s : PlayerState) (r : Nat) (res : Resolve)
      (hr : r < s.queue.length ∨ s.queue.length = 0) : StepU s (skipNext r res s)
  | ofSkipPrevious (s : PlayerState) (r : Nat) (res : Resolve)
      (hr : r < s.queue.length ∨ s.queue.length = 0) : StepU s (skipPrevious r res s)
  | ofSeek (s : PlayerState) (p : Int) (hp : 0 ≤ p ∧ p ≤ 100) : StepU s (seek p s)
  | ofSetVolume (s : PlayerState) (v : Int) : StepU s (setVolume v s)
  | ofToggleShuffle (s : PlayerState) : StepU s (toggleShuffle s)
  | ofToggleRepeat (s : PlayerState) : StepU s (toggleRepeat s)
  | ofToggleMinimize (s : PlayerState) : StepU s (toggleMinimize s)
  | ofOpenQueuePanel (s : PlayerState) : StepU s (openQueuePanel s)
  | ofCloseQueuePanel (s : PlayerState) : StepU s (closeQueuePanel s)
  | ofToggleQueuePanel (s : PlayerState) : StepU s (toggleQueuePanel s)
  | ofClearQueue (s : PlayerState) : StepU s (clearQueue s)
  | ofRemoveFromQueue (s : PlayerState) (tid : String) (res : Resolve) :
      StepU s (removeFromQueue tid res s)
  | ofReorderQueue (s : PlayerState) (fromIdx toIdx : Int) :
      StepU s (reorderQueue fromIdx toIdx s)
  | ofPlayFromQueue (s : PlayerState) (i : Int) (res : Resolve) :
      StepU s (playFromQueue i res s)
  | ofClosePlayer (s : PlayerState) : StepU s (closePlayer s)

/-- States reachable when insertions never duplicate a track id. -/
def ReachableU (s : PlayerState) : Prop := Relation.ReflTransGen StepU initState s

/-! ### The structural invariant -/

/-- The strengthened structural invariant: queue ids are pairwise distinct,
the -1 sentinel coincides with an empty queue and an absent current track,
and a non-sentinel index is in bounds with the current track agreeing by id
with the queue slot it points at. -/
def InvS (s : PlayerState) : Prop :=
  (s.queue.map Track.id).Nodup ∧
  (s.currentIndex = -1 → s.queue = [] ∧ s.currentTrack = none) ∧
  (s.currentIndex ≠ -1 →
    0 ≤ s.currentIndex ∧ s.currentIndex < (s.queue.length : Int) ∧
    ∃ c q, s.currentTrack = some c ∧ listGetI s.queue s.currentIndex = some q ∧
      q.id = c.id)

/-- Sample tracks used in concrete runs: two distinct tracks sharing the id
"a" (a duplicated song) and tracks with ids "b" and "c". -/
def trackA : Track := { id := "a", preview_url := none }

/-- A second queue entry with the same id "a". -/
def trackA2 : Track := { id := "a", preview_url := some "u" }

/-- A track with id "b". -/
def trackB : Track := { id := "b", preview_url := none }

/-- A track with id "c". -/
def trackC : Track := { id := "c", preview_url := none }

/-! ### Elementary lemmas about the JS array helpers -/

theorem spliceInsert_nil_zero {α : Type} (a : α) : spliceInsert ([] : List α) 0 a = [a] := rfl

theorem spliceInsert_zero {α : Type} (l : List α) (a : α) : spliceInsert l 0 a = a :: l := by
  simp [spliceInsert]

theorem spliceInsert_cons_succ {α : Type} (b : α) (l : List α) (n : Nat) (a : α) :
    spliceInsert (b :: l) (n + 1) a = b :: spliceInsert l n a := by
  simp [spliceInsert]

theorem spliceInsert_length {α : Type} (l : List α) (n : Nat) (a : α) (hn : n ≤ l.length) :
    (spliceInsert l n a).length = l.length + 1 := by
  simp only [spliceInsert, List.length_append, List.length_take, List.length_cons,
    List.length_drop]
  omega

theorem spliceInsert_getElem_lt {α : Type} (l : List α) (n : Nat) (a : α) (j : Nat)
    (hj : j < n) (hn : n ≤ l.length) : (spliceInsert l n a)[j]? = l[j]? := by
  induction l generalizing n j with
  | nil => simp at hn; omega
  | cons b l ih =>
    cases n with
    | zero => omega
    | succ n =>
      rw [spliceInsert_cons_succ]
      cases j with
      | zero => simp
      | succ j =>
        rw [List.getElem?_cons_succ, List.getElem?_cons_succ]
        exact ih n j (by omega) (by simpa using hn)

theorem spliceInsert_getElem_self {α : Type} (l : List α) (n : Nat) (a : α)
    (hn : n ≤ l.length) : (spliceInsert l n a)[n]? = some a := by
  induction l generalizing n with
  | nil =>
    have : n = 0 := by simpa using hn
    subst this
    simp [spliceInsert_zero]
  | cons b l ih =>
    cases n with
    | zero => simp [spliceInsert_zero]
    | succ n =>
      rw [spliceInsert_cons_succ, List.getElem?_cons_succ]
      exact ih n (by simpa using hn)

theorem spliceInsert_getElem_gt {α : Type} (l : List α) (n : Nat) (a : α) (j : Nat)
    (hj : n < j) (hn : n ≤ l.length) : (spliceInsert l n a)[j]? = l[j - 1]? := by
  induction l generalizing n j with
  | nil =>
    have hz : n = 0 := by simpa using hn
    subst hz
    rw [spliceInsert_zero]
    cases j with
    | zero => omega
    | succ j => simp
  | cons b l ih =>
    cases n with
    | zero =>
      rw [spliceInsert_zero]
      cases j with
      | zero => omega
      | succ j => simp
    | succ n =>
      rw [spliceInsert_cons_succ]
      cases j with
      | zero => omega
      | succ j =>
        rw [List.getElem?_cons_succ]
        rw [ih n j (by omega) (by simpa using hn)]
        cases j with
        | zero => omega
        | succ j => simp

theorem eraseIdx_getElem_lt {α : Type} (l : List α) (n : Nat) (j : Nat) (hj : j < n) :
    (l.eraseIdx n)[j]? = l[j]? := by
  induction l generalizing n j with
  | nil => simp
  | cons b l ih =>
    cases n with
    | zero => omega
    | succ n =>
      rw [List.eraseIdx_cons_succ]
      cases j with
      | zero => simp
      | succ j =>
        rw [List.getElem?_cons_succ, List.getElem?_cons_succ]
        exact ih n j (by omega)

theorem eraseIdx_getElem_ge {α : Type} (l : List α) (n : Nat) (j : Nat) (hj : n ≤ j) :
    (l.eraseIdx n)[j]? = l[j + 1]? := by
  induction l generalizing n j with
  | nil => simp
  | cons b l ih =>
    cases n with
    | zero =>
      rw [List.eraseIdx_cons_zero, List.getElem?_cons_succ]
    | succ n =>
      rw [List.eraseIdx_cons_succ]
      cases j with
      | zero => omega
      | succ j =>
        rw [List.getElem?_cons_succ, List.getElem?_cons_succ]
        exact ih n j (by omega)

theorem cons_eraseIdx_perm {α : Type} (l : List α) (n : Nat) (hn : n < l.length) :
    List.Perm (l.get ⟨n, hn⟩ :: l.eraseIdx n) l := by
  induction l generalizing n with
  | nil => simp at hn
  | cons b l ih =>
    cases n with
    | zero => simp
    | succ n =>
      rw [List.eraseIdx_cons_succ]
      have hn' : n < l.length := by simpa using hn
      have hp := ih n hn'
      have hswap : List.Perm ((b :: l).get ⟨n + 1, hn⟩ :: b :: l.eraseIdx n)
          (b :: (b :: l).get ⟨n + 1, hn⟩ :: l.eraseIdx n) := List.Perm.swap _ _ _
      have hget : (b :: l).get ⟨n + 1, hn⟩ = l.get ⟨n, hn'⟩ := rfl
      refine hswap.trans ?_
      rw [hget]
      exact List.Perm.cons b hp

theorem spliceInsert_perm {α : Type} (l : List α) (n : Nat) (a : α) :
    List.Perm (spliceInsert l n a) (a :: l) := by
  unfold spliceInsert
  refine List.perm_middle.trans ?_
  rw [List.take_append_drop]

/-! ### Lemmas about `findIndexJs` -/

theorem findIndexJs_ge {α : Type} (p : α → Bool) (l : List α) : -1 ≤ findIndexJs p l := by
  induction l with
  | nil => simp [findIndexJs]
  | cons a l ih =>
    simp only [findIndexJs]
    split
    · omega
    · split
      · omega
      · omega

theorem findIndexJs_eq_neg_one_iff {α : Type} (p : α → Bool) (l : List α) :
    findIndexJs p l = -1 ↔ ∀ x ∈ l, p x = false := by
  induction l with
  | nil => simp [findIndexJs]
  | cons a l ih =>
    simp only [findIndexJs, List.mem_cons]
    by_cases hpa : p a = true
    · rw [if_pos hpa]
      constructor
      · intro h; omega
      · intro h
        have := h a (Or.inl rfl)
        rw [hpa] at this
        cases this
    · rw [if_neg hpa]
      have hge := findIndexJs_ge p l
      constructor
      · intro h
        split at h
        · intro x hx
          rcases hx with hx | hx
          · subst hx; exact Bool.eq_false_iff.mpr (fun hc => hpa hc)
          · rename_i hr
            exact (ih.mp hr) x hx
        · omega
      · intro h
        have hl : findIndexJs p l = -1 := ih.mpr (fun x hx => h x (Or.inr hx))
        rw [if_pos hl]

theorem findIndexJs_found {α : Type} (p : α → Bool) (l : List α)
    (h : findIndexJs p l ≠ -1) :
    0 ≤ findIndexJs p l ∧ findIndexJs p l < (l.length : Int) ∧
      ∃ x, l[(findIndexJs p l).toNat]? = some x ∧ p x = true := by
  induction l with
  | nil => simp [findIndexJs] at h
  | cons a l ih =>
    simp only [findIndexJs] at h ⊢
    by_cases hpa : p a = true
    · rw [if_pos hpa] at h ⊢
      refine ⟨by omega, by simp only [List.length_cons]; omega, a, ?_, hpa⟩
      simp
    · rw [if_neg hpa] at h ⊢
      split at h
      · omega
      · rename_i hr
        have hge := findIndexJs_ge p l
        have hrec := ih hr
        obtain ⟨h0, h1, x, hx, hpx⟩ := hrec
        rw [if_neg hr]
        refine ⟨by omega, by simp only [List.length_cons]; omega, x, ?_, hpx⟩
        have ht : (findIndexJs p l + 1).toNat = (findIndexJs p l).toNat + 1 := by omega
        rw [ht, List.getElem?_cons_succ]
        exact hx

theorem filter_eq_eraseIdx_of_nodup (tid : String) (l : List Track)
    (hnd : (l.map Track.id).Nodup)
    (hne : findIndexJs (fun t => t.id == tid) l ≠ -1) :
    l.filter (fun t => !(t.id == tid)) =
      l.eraseIdx (findIndexJs (fun t => t.id == tid) l).toNat := by
  induction l with
  | nil => simp [findIndexJs] at hne
  | cons a l ih =>
    simp only [findIndexJs] at hne ⊢
    by_cases hpa : (a.id == tid) = true
    · rw [if_pos hpa]
      have haid : a.id = tid := by simpa using hpa
      rw [List.map_cons, List.nodup_cons] at hnd
      have hall : ∀ t ∈ l, (fun t => !(t.id == tid)) t = true := by
        intro t ht
        simp only [Bool.not_eq_true', beq_eq_false_iff_ne, ne_eq]
        intro hc
        exact hnd.1 (by
          rw [haid, ← hc]
          exact List.mem_map_of_mem Track.id ht)
      rw [List.filter_cons, hpa]
      simp only [Bool.not_true, Bool.false_eq_true, if_false, Int.toNat_zero,
        List.eraseIdx_cons_zero]
      exact List.filter_eq_self.mpr hall
    · rw [if_neg hpa] at hne ⊢
      split at hne
      · omega
      · rename_i hr
        have hge := findIndexJs_ge (fun t => t.id == tid) l
        rw [if_neg hr]
        have ht : (findIndexJs (fun t => t.id == tid) l + 1).toNat =
            (findIndexJs (fun t => t.id == tid) l).toNat + 1 := by omega
        rw [ht, List.eraseIdx_cons_succ, List.filter_cons]
        rw [List.map_cons, List.nodup_cons] at hnd
        rw [if_pos (by simpa using hpa)]
        rw [ih hnd.2 hr]

/-! ### Lemmas about `listGetI` and `enhanceModel` -/

theorem listGetI_of_nonneg {α : Type} (l : List α) (i : Int) (h : 0 ≤ i) :
    listGetI l i = l[i.toNat]? := by
  simp [listGetI, h]

theorem listGetI_isSome {α : Type} (l : List α) (i : Int) (h0 : 0 ≤ i)
    (h1 : i < (l.length : Int)) : ∃ x, listGetI l i = some x := by
  rw [listGetI_of_nonneg l i h0]
  have : i.toNat < l.length := by omega
  exact ⟨l[i.toNat], List.getElem?_eq_getElem this⟩

theorem enhanceModel_id (t : Track) (res : Resolve) : (enhanceModel t res).id = t.id := by
  unfold enhanceModel
  split
  · rfl
  · cases res <;> rfl

/-! ### Characterisation of `goToIndex` -/

theorem goToIndex_none (ap : Bool) (res : Resolve) (s : PlayerState) :
    goToIndex none ap res s = { s with isPlaying := false, progress := 0 } := rfl

theorem goToIndex_invalid (i : Int) (ap : Bool) (res : Resolve) (s : PlayerState)
    (h : i < 0 ∨ (s.queue.length : Int) ≤ i) :
    goToIndex (some i) ap res s = { s with isPlaying := false, progress := 0 } := by
  simp only [goToIndex]
  rw [dif_pos h]

theorem goToIndex_valid (i : Int) (ap : Bool) (res : Resolve) (s : PlayerState) (x : Track)
    (h0 : 0 ≤ i) (h1 : i < (s.queue.length : Int)) (hx : listGetI s.queue i = some x) :
    goToIndex (some i) ap res s =
      { s with
        currentIndex := i
        currentTrack := some (if ap then enhanceModel x res else x)
        isPlaying := ap
        progress := 0 } := by
  have hn : i.toNat < s.queue.length := by omega
  have hget : s.queue[i.toNat] = x := by
    rw [listGetI_of_nonneg _ _ h0] at hx
    exact (List.getElem?_eq_some_iff.mp hx).2
  simp only [goToIndex]
  rw [dif_neg (by omega : ¬(i < 0 ∨ (s.queue.length : Int) ≤ i))]
  cases ap with
  | false => simp [hget]
  | true => simp [hget, loadTrack]

theorem invS_init : InvS initState := by
  refine ⟨by simp [initState], fun _ => ⟨rfl, rfl⟩, fun hc => absurd rfl hc⟩

theorem invS_congr (s s' : PlayerState) (hq : s'.queue = s.queue)
    (hi : s'.currentIndex = s.currentIndex) (ht : s'.currentTrack = s.currentTrack)
    (h : InvS s) : InvS s' := by
  unfold InvS at h ⊢
  rw [hq, hi, ht]
  exact h

theorem togglePlay_queue (s : PlayerState) : (togglePlay s).queue = s.queue := by
  unfold togglePlay; split <;> rfl

theorem togglePlay_currentIndex (s : PlayerState) :
    (togglePlay s).currentIndex = s.currentIndex := by
  unfold togglePlay; split <;> rfl

theorem togglePlay_currentTrack (s : PlayerState) :
    (togglePlay s).currentTrack = s.currentTrack := by
  unfold togglePlay; split <;> rfl

theorem invS_goToIndex (io : Option Int) (ap : Bool) (res : Resolve) (s : PlayerState)
    (h : InvS s) : InvS (goToIndex io ap res s) := by
  cases io with
  | none => rw [goToIndex_none]; exact invS_congr s _ rfl rfl rfl h
  | some i =>
    by_cases hv : i < 0 ∨ (s.queue.length : Int) ≤ i
    · rw [goToIndex_invalid i ap res s hv]; exact invS_congr s _ rfl rfl rfl h
    · have h0 : 0 ≤ i := by omega
      have h1 : i < (s.queue.length : Int) := by omega
      obtain ⟨x, hx⟩ := listGetI_isSome s.queue i h0 h1
      rw [goToIndex_valid i ap res s x h0 h1 hx]
      refine ⟨h.1, fun hc => absurd hc (by simp; omega), fun _ => ⟨h0, h1, ?_⟩⟩
      refine ⟨if ap then enhanceModel x res else x, x, rfl, hx, ?_⟩
      cases ap with
      | false => simp
      | true => simp [enhanceModel_id]

theorem invS_playTrack (t : Track) (res : Resolve) (s : PlayerState) (h : InvS s) :
    InvS (playTrack t res s) := by
  unfold playTrack
  split
  · exact invS_congr s _ (togglePlay_queue s) (togglePlay_currentIndex s)
      (togglePlay_currentTrack s) h
  · unfold loadTrack
    refine ⟨by simp, fun hc => absurd hc (by simp), fun _ => ?_⟩
    exact ⟨by simp, by simp, enhanceModel t res, t, rfl, by simp [listGetI],
      (enhanceModel_id t res).symm⟩

theorem invS_enqueue (t : Track) (s : PlayerState) (hid : ∀ u ∈ s.queue, u.id ≠ t.id)
    (h : InvS s) : InvS (enqueue t s) := by
  obtain ⟨hnd, hneg, hpos⟩ := h
  unfold enqueue
  by_cases hc : s.currentIndex = -1
  · obtain ⟨hqe, hte⟩ := hneg hc
    rw [hc, hqe, hte]
    refine ⟨by simp, fun hz => absurd hz (by simp), fun _ => ?_⟩
    exact ⟨by simp, by simp, t, t, rfl, by simp [listGetI], rfl⟩
  · obtain ⟨h0, h1, c, q, htr, hlk, hidq⟩ := hpos hc
    rw [if_neg hc, htr]
    have htid : t.id ∉ s.queue.map Track.id := by
      intro hm
      obtain ⟨u, hu, hequ⟩ := List.mem_map.mp hm
      exact hid u hu hequ
    refine ⟨?_, fun hz => absurd hz (by simpa using hc), fun _ => ?_⟩
    · simp only [List.map_append, List.map_cons, List.map_nil]
      rw [List.nodup_append]
      refine ⟨hnd, by simp, ?_⟩
      intro a ha hb
      simp only [List.mem_cons, List.not_mem_nil, or_false] at hb
      subst hb
      exact htid ha
    · refine ⟨h0, by simp only [List.length_append, List.length_cons, List.length_nil]; omega,
        c, q, by simp, ?_, hidq⟩
      rw [listGetI_of_nonneg _ _ h0] at hlk ⊢
      rw [List.getElem?_append_left (by omega)]
      exact hlk

theorem invS_enqueueNext (t : Track) (s : PlayerState) (hid : ∀ u ∈ s.queue, u.id ≠ t.id)
    (h : InvS s) : InvS (enqueueNext t s) := by
  obtain ⟨hnd, hneg, hpos⟩ := h
  unfold enqueueNext
  by_cases hc : s.currentIndex = -1
  · rw [if_pos hc]
    refine ⟨by simp, fun hz => absurd hz (by simp), fun _ => ?_⟩
    exact ⟨by simp, by simp, t, t, rfl, by simp [listGetI], rfl⟩
  · obtain ⟨h0, h1, c, q, htr, hlk, hidq⟩ := hpos hc
    rw [if_neg hc]
    have hjs : jsSpliceIdx s.queue.length (s.currentIndex + 1) = (s.currentIndex + 1).toNat := by
      unfold jsSpliceIdx
      rw [if_neg (by omega)]
      omega
    rw [hjs]
    have hsplen : (s.currentIndex + 1).toNat ≤ s.queue.length := by omega
    have htid : t.id ∉ s.queue.map Track.id := by
      intro hm
      obtain ⟨u, hu, hequ⟩ := List.mem_map.mp hm
      exact hid u hu hequ
    refine ⟨?_, fun hz => absurd hz (by simpa using hc), fun _ => ?_⟩
    · have hperm := (spliceInsert_perm s.queue (s.currentIndex + 1).toNat t).map Track.id
      refine hperm.symm.nodup ?_
      simp only [List.map_cons]
      exact List.nodup_cons.mpr ⟨htid, hnd⟩
    · refine ⟨h0, ?_, c, q, htr, ?_, hidq⟩
      · simp only [spliceInsert_length s.queue _ t hsplen]
        omega
      · rw [listGetI_of_nonneg _ _ h0] at hlk ⊢
        rw [spliceInsert_getElem_lt s.queue _ t _ (by omega) hsplen]
        exact hlk

theorem invS_clearQueue (s : PlayerState) : InvS (clearQueue s) := by
  refine ⟨by simp [clearQueue], fun _ => ⟨rfl, rfl⟩, fun hc => absurd rfl hc⟩

theorem invS_closePlayer (s : PlayerState) : InvS (closePlayer s) := invS_init

theorem invS_skipNext (r : Nat) (res : Resolve) (s : PlayerState) (h : InvS s) :
    InvS (skipNext r res s) := by
  unfold skipNext
  by_cases h0 : s.queue.length = 0
  · rw [if_pos h0]; exact h
  · rw [if_neg h0]
    by_cases h1 : s.repeatMode = RepeatMode.one ∧ 0 ≤ s.currentIndex
    · rw [if_pos h1]; exact invS_goToIndex _ _ _ _ h
    · rw [if_neg h1]
      dsimp only
      repeat' split
      all_goals exact invS_goToIndex _ _ _ _ h

theorem invS_skipPrevious (r : Nat) (res : Resolve) (s : PlayerState) (h : InvS s) :
    InvS (skipPrevious r res s) := by
  unfold skipPrevious
  by_cases h0 : s.queue.length = 0
  · rw [if_pos h0]; exact h
  · rw [if_neg h0]
    dsimp only
    repeat' split
    all_goals exact invS_goToIndex _ _ _ _ h

theorem invS_playFromQueue (i : Int) (res : Resolve) (s : PlayerState) (h : InvS s) :
    InvS (playFromQueue i res s) := invS_goToIndex _ _ _ _ h

theorem removeFromQueue_not_found (tid : String) (res : Resolve) (s : PlayerState)
    (hni : findIndexJs (fun t => t.id == tid) s.queue = -1) :
    removeFromQueue tid res s = s := by
  simp only [removeFromQueue]
  rw [if_pos hni]

theorem invS_removeFromQueue (tid : String) (res : Resolve) (s : PlayerState)
    (h : InvS s) : InvS (removeFromQueue tid res s) := by
  by_cases hni : findIndexJs (fun t => t.id == tid) s.queue = -1
  · rw [removeFromQueue_not_found tid res s hni]; exact h
  · obtain ⟨hi0, hi1, w, hw, hpw⟩ := findIndexJs_found (fun t => t.id == tid) s.queue hni
    have hfe : List.filter (fun t => !(t.id == tid)) s.queue =
        s.queue.eraseIdx (findIndexJs (fun t => t.id == tid) s.queue).toNat :=
      filter_eq_eraseIdx_of_nodup tid s.queue h.1 hni
    have hlen0 : 0 < s.queue.length := by omega
    simp only [removeFromQueue]
    rw [if_neg hni, hfe]
    generalize hidx : findIndexJs (fun t => t.id == tid) s.queue = idx at hi0 hi1 hw
    have hlen : (s.queue.eraseIdx idx.toNat).length = s.queue.length - 1 := by
      rw [List.length_eraseIdx, if_pos (by omega)]
    have hnd' : ((s.queue.eraseIdx idx.toNat).map Track.id).Nodup :=
      List.Nodup.sublist (List.Sublist.map Track.id (List.eraseIdx_sublist s.queue idx.toNat)) h.1
    by_cases hcur : idx = s.currentIndex
    · -- the removed entry is the current one
      have hcc : s.currentIndex ≠ -1 := by omega
      obtain ⟨hc0, hc1, c, q, htr, hlk, hidq⟩ := h.2.2 hcc
      by_cases hA1 : (s.queue.eraseIdx idx.toNat).length = 0
      · have hsel : removeNextSel idx (s.queue.eraseIdx idx.toNat) s = (-1, none) := by
          unfold removeNextSel
          rw [if_pos hcur, if_pos hA1]
        rw [hsel]
        dsimp only
        have hnqnil : s.queue.eraseIdx idx.toNat = [] := List.length_eq_zero.mp hA1
        rw [hnqnil]
        simp [InvS]
      · by_cases hA2 : ((s.queue.eraseIdx idx.toNat).length : Int) ≤ s.currentIndex
        · obtain ⟨x, hx⟩ := listGetI_isSome (s.queue.eraseIdx idx.toNat)
            (((s.queue.eraseIdx idx.toNat).length : Int) - 1) (by omega) (by omega)
          have hsel : removeNextSel idx (s.queue.eraseIdx idx.toNat) s =
              (((s.queue.eraseIdx idx.toNat).length : Int) - 1, some x) := by
            unfold removeNextSel
            rw [if_pos hcur, if_neg hA1, if_pos hA2, hx]
          rw [hsel]
          dsimp only
          simp only [loadTrack, InvS]
          refine ⟨hnd', fun hz => absurd hz (by omega), fun _ => ?_⟩
          exact ⟨by omega, by omega, enhanceModel x res, x, rfl, hx,
            (enhanceModel_id x res).symm⟩
        · obtain ⟨x, hx⟩ := listGetI_isSome (s.queue.eraseIdx idx.toNat) s.currentIndex
            hc0 (by omega)
          have hsel : removeNextSel idx (s.queue.eraseIdx idx.toNat) s =
              (s.currentIndex, some x) := by
            unfold removeNextSel
            rw [if_pos hcur, if_neg hA1, if_neg hA2, hx]
          rw [hsel]
          dsimp only
          simp only [loadTrack, InvS]
          refine ⟨hnd', fun hz => absurd hz (by omega), fun _ => ?_⟩
          exact ⟨by omega, by omega, enhanceModel x res, x, rfl, hx,
            (enhanceModel_id x res).symm⟩
    · by_cases hB : idx < s.currentIndex
      · -- removed before the current entry
        have hcc : s.currentIndex ≠ -1 := by omega
        obtain ⟨hc0, hc1, c, q, htr, hlk, hidq⟩ := h.2.2 hcc
        have hmax : max (s.currentIndex - 1) 0 = s.currentIndex - 1 := by omega
        obtain ⟨x, hx⟩ := listGetI_isSome (s.queue.eraseIdx idx.toNat)
          (s.currentIndex - 1) (by omega) (by omega)
        have hsel : removeNextSel idx (s.queue.eraseIdx idx.toNat) s =
            (s.currentIndex - 1, some x) := by
          unfold removeNextSel
          rw [if_neg hcur, if_pos hB, hmax, hx]
        rw [hsel]
        dsimp only
        simp only [loadTrack, InvS]
        refine ⟨hnd', fun hz => absurd hz (by omega), fun _ => ?_⟩
        exact ⟨by omega, by omega, enhanceModel x res, x, rfl, hx,
          (enhanceModel_id x res).symm⟩
      · -- removed strictly after the current entry
        have hC : s.currentIndex < idx := by omega
        have hcc : s.currentIndex ≠ -1 := by
          intro hz
          rw [(h.2.1 hz).1] at hlen0
          simp at hlen0
        obtain ⟨hc0, hc1, c, q, htr, hlk, hidq⟩ := h.2.2 hcc
        have hsel : removeNextSel idx (s.queue.eraseIdx idx.toNat) s =
            (s.currentIndex, s.currentTrack) := by
          unfold removeNextSel
          rw [if_neg hcur, if_neg hB]
        rw [hsel, htr]
        dsimp only
        simp only [loadTrack, InvS]
        have hlk' : listGetI (s.queue.eraseIdx idx.toNat) s.currentIndex = some q := by
          rw [listGetI_of_nonneg _ _ hc0] at hlk ⊢
          rw [eraseIdx_getElem_lt s.queue idx.toNat s.currentIndex.toNat (by omega)]
          exact hlk
        refine ⟨hnd', fun hz => absurd hz (by omega), fun _ => ?_⟩
        exact ⟨by omega, by omega, enhanceModel c res, q, rfl, hlk',
          by rw [hidq, enhanceModel_id]⟩

theorem invS_reorderQueue (fromIdx toIdx : Int) (s : PlayerState) (h : InvS s) :
    InvS (reorderQueue fromIdx toIdx s) := by
  by_cases hv : fromIdx = toIdx ∨ fromIdx < 0 ∨ toIdx < 0 ∨
      (s.queue.length : Int) ≤ fromIdx ∨ (s.queue.length : Int) ≤ toIdx
  · simp only [reorderQueue]
    rw [dif_pos hv]
    exact h
  · simp only [reorderQueue]
    rw [dif_neg hv]
    push_neg at hv
    obtain ⟨hne, hf0, ht0, hf1, ht1⟩ := hv
    have hfn : fromIdx.toNat < s.queue.length := by omega
    have htn : toIdx.toNat ≤ (s.queue.eraseIdx fromIdx.toNat).length := by
      rw [List.length_eraseIdx, if_pos hfn]
      omega
    have hlen : (spliceInsert (s.queue.eraseIdx fromIdx.toNat) toIdx.toNat
        (s.queue.get ⟨fromIdx.toNat, hfn⟩)).length = s.queue.length := by
      rw [spliceInsert_length _ _ _ htn, List.length_eraseIdx, if_pos hfn]
      omega
    have hperm : List.Perm (spliceInsert (s.queue.eraseIdx fromIdx.toNat) toIdx.toNat
        (s.queue.get ⟨fromIdx.toNat, hfn⟩)) s.queue :=
      (spliceInsert_perm _ _ _).trans (cons_eraseIdx_perm s.queue fromIdx.toNat hfn)
    have hnd' : ((spliceInsert (s.queue.eraseIdx fromIdx.toNat) toIdx.toNat
        (s.queue.get ⟨fromIdx.toNat, hfn⟩)).map Track.id).Nodup :=
      ((hperm.map Track.id).symm).nodup h.1
    by_cases hcc : s.currentIndex = -1
    · -- nothing selected: with the invariant the queue is empty, contradicting a valid index
      obtain ⟨hqe, _⟩ := h.2.1 hcc
      rw [hqe] at hfn
      simp at hfn
    · obtain ⟨hc0, hc1, c, q, htr, hlk, hidq⟩ := h.2.2 hcc
      rw [listGetI_of_nonneg _ _ hc0] at hlk
      by_cases hx1 : fromIdx = s.currentIndex
      · -- the moved item was current: its index becomes toIdx
        rw [if_pos hx1]
        simp only [InvS]
        refine ⟨hnd', fun hz => absurd hz (by omega), fun _ => ?_⟩
        refine ⟨ht0, by omega, c, q, htr, ?_, hidq⟩
        rw [listGetI_of_nonneg _ _ ht0]
        rw [spliceInsert_getElem_self _ _ _ htn]
        have : s.queue.get ⟨fromIdx.toNat, hfn⟩ = q := by
          have := List.getElem?_eq_some_iff.mp (hx1 ▸ hlk)
          simpa using this.2
        rw [this]
      · rw [if_neg hx1]
        by_cases hx2 : fromIdx < s.currentIndex ∧ s.currentIndex ≤ toIdx
        · -- crossed from before to at-or-after: index shifts down
          rw [if_pos hx2]
          simp only [InvS]
          refine ⟨hnd', fun hz => absurd hz (by omega), fun _ => ?_⟩
          refine ⟨by omega, by omega, c, q, htr, ?_, hidq⟩
          rw [listGetI_of_nonneg _ _ (by omega)]
          rw [spliceInsert_getElem_lt _ _ _ _ (by omega) htn]
          rw [eraseIdx_getElem_ge s.queue fromIdx.toNat (s.currentIndex - 1).toNat (by omega)]
          have harg : (s.currentIndex - 1).toNat + 1 = s.currentIndex.toNat := by omega
          rw [harg]
          exact hlk
        · rw [if_neg hx2]
          by_cases hx3 : s.currentIndex < fromIdx ∧ toIdx ≤ s.currentIndex
          · -- crossed from after to at-or-before: index shifts up
            rw [if_pos hx3]
            simp only [InvS]
            refine ⟨hnd', fun hz => absurd hz (by omega), fun _ => ?_⟩
            refine ⟨by omega, by omega, c, q, htr, ?_, hidq⟩
            rw [listGetI_of_nonneg _ _ (by omega)]
            rw [spliceInsert_getElem_gt _ _ _ _ (by omega) htn]
            have harg : (s.currentIndex + 1).toNat - 1 = s.currentIndex.toNat := by omega
            rw [harg]
            rw [eraseIdx_getElem_lt s.queue fromIdx.toNat s.currentIndex.toNat (by omega)]
            exact hlk
          · -- no crossing: index unchanged
            rw [if_neg hx3]
            simp only [InvS]
            refine ⟨hnd', fun hz => absurd hz (by omega), fun _ => ?_⟩
            refine ⟨hc0, by omega, c, q, htr, ?_, hidq⟩
            rw [listGetI_of_nonneg _ _ hc0]
            by_cases hfc : fromIdx < s.currentIndex
            · -- then also toIdx < currentIndex
              have htc : toIdx < s.currentIndex := by
                rcases lt_or_ge toIdx s.currentIndex with hlt | hge
                · exact hlt
                · exact absurd ⟨hfc, by omega⟩ hx2
              rw [spliceInsert_getElem_gt _ _ _ _ (by omega) htn]
              rw [eraseIdx_getElem_ge s.queue fromIdx.toNat (s.currentIndex.toNat - 1) (by omega)]
              have harg : s.currentIndex.toNat - 1 + 1 = s.currentIndex.toNat := by omega
              rw [harg]
              exact hlk
            · -- fromIdx > currentIndex, hence toIdx > currentIndex
              have hfc' : s.currentIndex < fromIdx := by omega
              have htc : s.currentIndex < toIdx := by
                rcases lt_or_ge s.currentIndex toIdx with hlt | hge
                · exact hlt
                · exact absurd ⟨hfc', by omega⟩ hx3
              rw [spliceInsert_getElem_lt _ _ _ _ (by omega) htn]
              rw [eraseIdx_getElem_lt s.queue fromIdx.toNat s.currentIndex.toNat (by omega)]
              exact hlk

/-! ### Preservation along runs -/

theorem invS_stepU (s s' : PlayerState) (hstep : StepU s s') (h : InvS s) : InvS s' := by
  cases hstep with
  | ofPlayTrack t res => exact invS_playTrack t res s h
  | ofEnqueue t hid => exact invS_enqueue t s hid h
  | ofEnqueueNext t hid => exact invS_enqueueNext t s hid h
  | ofTogglePlay =>
    exact invS_congr s _ (togglePlay_queue s) (togglePlay_currentIndex s)
      (togglePlay_currentTrack s) h
  | ofSkipNext r res hr => exact invS_skipNext r res s h
  | ofSkipPrevious r res hr => exact invS_skipPrevious r res s h
  | ofSeek p hp => exact invS_congr s _ rfl rfl rfl h
  | ofSetVolume v => exact invS_congr s _ rfl rfl rfl h
  | ofToggleShuffle => exact invS_congr s _ rfl rfl rfl h
  | ofToggleRepeat => exact invS_congr s _ rfl rfl rfl h
  | ofToggleMinimize => exact invS_congr s _ rfl rfl rfl h
  | ofOpenQueuePanel => exact invS_congr s _ rfl rfl rfl h
  | ofCloseQueuePanel => exact invS_congr s _ rfl rfl rfl h
  | ofToggleQueuePanel => exact invS_congr s _ rfl rfl rfl h
  | ofClearQueue => exact invS_clearQueue s
  | ofRemoveFromQueue tid res => exact invS_removeFromQueue tid res s h
  | ofReorderQueue fromIdx toIdx => exact invS_reorderQueue fromIdx toIdx s h
  | ofPlayFromQueue i res => exact invS_playFromQueue i res s h
  | ofClosePlayer => exact invS_closePlayer s

theorem invS_reachableU (s : PlayerState) (h : ReachableU s) : InvS s := by
  induction h with
  | refl => exact invS_init
  | tail hab hbc ih => exact invS_stepU _ _ hbc ih

/-! ### Progress and index facts about the individual operations -/

theorem goToIndex_progress (io : Option Int) (ap : Bool) (res : Resolve) (s : PlayerState) :
    (goToIndex io ap res s).progress = 0 := by
  cases io with
  | none => rfl
  | some i =>
    simp only [goToIndex]
    split
    · rfl
    · cases ap with
      | false => rfl
      | true => rfl

theorem togglePlay_progress (s : PlayerState) : (togglePlay s).progress = s.progress := by
  unfold togglePlay; split <;> rfl

theorem playTrack_cases (t : Track) (res : Resolve) (s : PlayerState) :
    (playTrack t res s).progress = 0 ∨ playTrack t res s = togglePlay s := by
  unfold playTrack
  split
  · right; rfl
  · left; rfl

theorem skipNext_cases (r : Nat) (res : Resolve) (s : PlayerState) :
    (skipNext r res s).progress = 0 ∨ skipNext r res s = s := by
  unfold skipNext
  by_cases h0 : s.queue.length = 0
  · rw [if_pos h0]; right; rfl
  · rw [if_neg h0]
    left
    split
    · exact goToIndex_progress _ _ _ _
    · dsimp only
      repeat' split
      all_goals exact goToIndex_progress _ _ _ _

theorem skipPrevious_cases (r : Nat) (res : Resolve) (s : PlayerState) :
    (skipPrevious r res s).progress = 0 ∨ skipPrevious r res s = s := by
  unfold skipPrevious
  by_cases h0 : s.queue.length = 0
  · rw [if_pos h0]; right; rfl
  · rw [if_neg h0]
    left
    dsimp only
    repeat' split
    all_goals exact goToIndex_progress _ _ _ _

theorem removeFromQueue_cases (tid : String) (res : Resolve) (s : PlayerState) :
    (removeFromQueue tid res s).progress = 0 ∨ removeFromQueue tid res s = s := by
  by_cases hni : findIndexJs (fun t => t.id == tid) s.queue = -1
  · right; exact removeFromQueue_not_found tid res s hni
  · left
    simp only [removeFromQueue]
    rw [if_neg hni]
    rcases hsel : removeNextSel (findIndexJs (fun t => t.id == tid) s.queue)
        (List.filter (fun t => !(t.id == tid)) s.queue) s with ⟨ci, ct⟩
    rw [hsel]
    cases ct with
    | some nt => simp [loadTrack]
    | none => simp

theorem reorderQueue_currentTrack (fromIdx toIdx : Int) (s : PlayerState) :
    (reorderQueue fromIdx toIdx s).currentTrack = s.currentTrack := by
  unfold reorderQueue
  split
  · rfl
  · rfl

theorem reorderQueue_progress (fromIdx toIdx : Int) (s : PlayerState) :
    (reorderQueue fromIdx toIdx s).progress = s.progress := by
  unfold reorderQueue
  split
  · rfl
  · rfl

/-- A state whose progress became 0, or an operation that returned the state
unchanged: either way, a changed current track forces progress 0. -/
theorem progress_zero_of_cases {x s : PlayerState}
    (hx : x.progress = 0 ∨ x = s) (hne : x.currentTrack ≠ s.currentTrack) :
    x.progress = 0 := by
  rcases hx with hmm | hmm
  · exact hmm
  · rw [hmm] at hne
    exact absurd rfl hne

theorem progress_bounds_step (s s' : PlayerState) (hstep : Step s s')
    (h : 0 ≤ s.progress ∧ s.progress ≤ 100) :
    0 ≤ s'.progress ∧ s'.progress ≤ 100 := by
  cases hstep with
  | ofPlayTrack t res =>
    rcases playTrack_cases t res s with hc | hc
    · omega
    · rw [hc, togglePlay_progress]; exact h
  | ofEnqueue t => exact h
  | ofEnqueueNext t =>
    have : (enqueueNext t s).progress = s.progress := by
      unfold enqueueNext; split <;> rfl
    omega
  | ofTogglePlay => rw [togglePlay_progress]; exact h
  | ofSkipNext r res hr =>
    rcases skipNext_cases r res s with hc | hc
    · omega
    · rw [hc]; exact h
  | ofSkipPrevious r res hr =>
    rcases skipPrevious_cases r res s with hc | hc
    · omega
    · rw [hc]; exact h
  | ofSeek p hp => exact hp
  | ofSetVolume v => exact h
  | ofToggleShuffle => exact h
  | ofToggleRepeat => exact h
  | ofToggleMinimize => exact h
  | ofOpenQueuePanel => exact h
  | ofCloseQueuePanel => exact h
  | ofToggleQueuePanel => exact h
  | ofClearQueue => exact ⟨by simp [clearQueue], by simp [clearQueue]⟩
  | ofRemoveFromQueue tid res =>
    rcases removeFromQueue_cases tid res s with hc | hc
    · omega
    · rw [hc]; exact h
  | ofReorderQueue fromIdx toIdx => rw [reorderQueue_progress]; exact h
  | ofPlayFromQueue i res =>
    have : (playFromQueue i res s).progress = 0 := goToIndex_progress _ _ _ _
    omega
  | ofClosePlayer => exact ⟨by simp [closePlayer, initState], by simp [closePlayer, initState]⟩

theorem progress_bounds_reachable (s : PlayerState) (h : Reachable s) :
    0 ≤ s.progress ∧ s.progress ≤ 100 := by
  induction h with
  | refl => exact ⟨by simp [initState], by simp [initState]⟩
  | tail hab hbc ih => exact progress_bounds_step _ _ hbc ih

theorem goToIndex_currentIndex (io : Option Int) (ap : Bool) (res : Resolve)
    (s : PlayerState) :
    (goToIndex io ap res s).currentIndex = s.currentIndex ∨
      0 ≤ (goToIndex io ap res s).currentIndex := by
  cases io with
  | none => left; rfl
  | some i =>
    simp only [goToIndex]
    split
    · left; rfl
    · rename_i hb
      right
      dsimp only
      split
      · show 0 ≤ i
        omega
      · show 0 ≤ i
        omega

theorem goToIndex_currentIndex_ge (io : Option Int) (ap : Bool) (res : Resolve)
    (s : PlayerState) (h : -1 ≤ s.currentIndex) :
    -1 ≤ (goToIndex io ap res s).currentIndex := by
  rcases goToIndex_currentIndex io ap res s with hc | hc <;> omega

theorem removeNextSel_fst_ge (idx : Int) (nq : List Track) (s : PlayerState)
    (h : -1 ≤ s.currentIndex) : -1 ≤ (removeNextSel idx nq s).1 := by
  unfold removeNextSel
  repeat' split
  all_goals dsimp only
  all_goals omega

theorem currentIndex_ge_step (s s' : PlayerState) (hstep : Step s s')
    (h : -1 ≤ s.currentIndex) : -1 ≤ s'.currentIndex := by
  cases hstep with
  | ofPlayTrack t res =>
    unfold playTrack
    split
    · rw [togglePlay_currentIndex]; exact h
    · show (-1 : Int) ≤ 0
      norm_num
  | ofEnqueue t =>
    simp only [enqueue]
    split <;> omega
  | ofEnqueueNext t =>
    unfold enqueueNext
    split
    · show (-1 : Int) ≤ 0
      norm_num
    · exact h
  | ofTogglePlay => rw [togglePlay_currentIndex]; exact h
  | ofSkipNext r res hr =>
    unfold skipNext
    by_cases h0 : s.queue.length = 0
    · rw [if_pos h0]; exact h
    · rw [if_neg h0]
      split
      · exact goToIndex_currentIndex_ge _ _ _ _ h
      · dsimp only
        repeat' split
        all_goals exact goToIndex_currentIndex_ge _ _ _ _ h
  | ofSkipPrevious r res hr =>
    unfold skipPrevious
    by_cases h0 : s.queue.length = 0
    · rw [if_pos h0]; exact h
    · rw [if_neg h0]
      dsimp only
      repeat' split
      all_goals exact goToIndex_currentIndex_ge _ _ _ _ h
  | ofSeek p hp => exact h
  | ofSetVolume v => exact h
  | ofToggleShuffle => exact h
  | ofToggleRepeat => exact h
  | ofToggleMinimize => exact h
  | ofOpenQueuePanel => exact h
  | ofCloseQueuePanel => exact h
  | ofToggleQueuePanel => exact h
  | ofClearQueue =>
    show (-1 : Int) ≤ -1
    omega
  | ofRemoveFromQueue tid res =>
    by_cases hni : findIndexJs (fun t => t.id == tid) s.queue = -1
    · rw [removeFromQueue_not_found tid res s hni]; exact h
    · simp only [removeFromQueue]
      rw [if_neg hni]
      have hsel := removeNextSel_fst_ge (findIndexJs (fun t => t.id == tid) s.queue)
        (List.filter (fun t => !(t.id == tid)) s.queue) s h
      rcases hmatch : (removeNextSel (findIndexJs (fun t => t.id == tid) s.queue)
          (List.filter (fun t => !(t.id == tid)) s.queue) s) with ⟨ci, ct⟩
      rw [hmatch] at hsel
      rw [hmatch]
      cases ct with
      | some nt => simp only [loadTrack]; exact hsel
      | none => exact hsel
  | ofReorderQueue fromIdx toIdx =>
    unfold reorderQueue
    split
    · exact h
    · rename_i hv
      push_neg at hv
      dsimp only
      repeat' split
      all_goals omega
  | ofPlayFromQueue i res =>
    exact goToIndex_currentIndex_ge (some i) true res s h
  | ofClosePlayer =>
    show (-1 : Int) ≤ -1
    omega

theorem currentIndex_ge_reachable (s : PlayerState) (h : Reachable s) :
    -1 ≤ s.currentIndex := by
  induction h with
  | refl => simp [initState]
  | tail hab hbc ih => exact currentIndex_ge_step _ _ hbc ih

/-! ### Claim C8 -/

/-- C8: `clearQueue` produces a state with an empty queue, cleared selection,
stopped playback and zero progress, while volume, shuffle, repeat mode and
both presentation flags are unchanged. -/
theorem c8_clearQueue_frame (s : PlayerState) :
    (clearQueue s).queue = [] ∧ (clearQueue s).currentIndex = -1 ∧
    (clearQueue s).currentTrack = none ∧ (clearQueue s).isPlaying = false ∧
    (clearQueue s).progress = 0 ∧ (clearQueue s).volume = s.volume ∧
    (clearQueue s).isShuffled = s.isShuffled ∧
    (clearQueue s).repeatMode = s.repeatMode ∧
    (clearQueue s).isMinimized = s.isMinimized ∧
    (clearQueue s).isQueueOpen = s.isQueueOpen :=
  ⟨rfl, rfl, rfl, rfl, rfl, rfl, rfl, rfl, rfl, rfl⟩

/-! ### Claim C5 -/

theorem reorderQueue_valid (s : PlayerState) (fromIdx toIdx : Int)
    (hv : ¬(fromIdx = toIdx ∨ fromIdx < 0 ∨ toIdx < 0 ∨
      (s.queue.length : Int) ≤ fromIdx ∨ (s.queue.length : Int) ≤ toIdx))
    (x : Track) (hx : listGetI s.queue fromIdx = some x) :
    reorderQueue fromIdx toIdx s =
      { s with
        queue := spliceInsert (s.queue.eraseIdx fromIdx.toNat) toIdx.toNat x
        currentIndex :=
          if fromIdx = s.currentIndex then toIdx
          else if fromIdx < s.currentIndex ∧ s.currentIndex ≤ toIdx then
            s.currentIndex - 1
          else if s.currentIndex < fromIdx ∧ toIdx ≤ s.currentIndex then
            s.currentIndex + 1
          else s.currentIndex } := by
  have hf0 : 0 ≤ fromIdx := by omega
  have hget : s.queue[fromIdx.toNat] = x := by
    rw [listGetI_of_nonneg _ _ hf0] at hx
    exact (List.getElem?_eq_some_iff.mp hx).2
  simp only [reorderQueue]
  rw [dif_neg hv]
  simp [hget]

/-- C5: `reorderQueue` is a no-op when the indices are equal, negative or out
of bounds; otherwise it relocates the element at `fromIdx` to position
`toIdx` (remove, then insert at the target position of the shortened list,
so the moved element ends up at `toIdx`) and rebases the current index as
the claim describes; and the concrete reorder law, `reorder(0, 2)` on
[A, B, C] with current index 1 yields [B, C, A] with current index 0. -/
theorem c5_reorderQueue_spec :
    (∀ (s : PlayerState) (fromIdx toIdx : Int),
      ((fromIdx = toIdx ∨ fromIdx < 0 ∨ toIdx < 0 ∨
          (s.queue.length : Int) ≤ fromIdx ∨ (s.queue.length : Int) ≤ toIdx) →
        reorderQueue fromIdx toIdx s = s) ∧
      (¬(fromIdx = toIdx ∨ fromIdx < 0 ∨ toIdx < 0 ∨
          (s.queue.length : Int) ≤ fromIdx ∨ (s.queue.length : Int) ≤ toIdx) →
        ∀ x, listGetI s.queue fromIdx = some x →
          (reorderQueue fromIdx toIdx s).queue =
            spliceInsert (s.queue.eraseIdx fromIdx.toNat) toIdx.toNat x ∧
          listGetI (reorderQueue fromIdx toIdx s).queue toIdx = some x ∧
          (reorderQueue fromIdx toIdx s).currentIndex =
            (if fromIdx = s.currentIndex then toIdx
             else if fromIdx < s.currentIndex ∧ s.currentIndex ≤ toIdx then
               s.currentIndex - 1
             else if s.currentIndex < fromIdx ∧ toIdx ≤ s.currentIndex then
               s.currentIndex + 1
             else s.currentIndex) ∧
          (reorderQueue fromIdx toIdx s).currentTrack = s.currentTrack)) ∧
    (reorderQueue 0 2 { initState with
        queue := [trackA, trackB, trackC], currentIndex := 1,
        currentTrack := some trackB }).queue = [trackB, trackC, trackA] ∧
    (reorderQueue 0 2 { initState with
        queue := [trackA, trackB, trackC], currentIndex := 1,
        currentTrack := some trackB }).currentIndex = 0 := by
  refine ⟨fun s fromIdx toIdx => ⟨fun hv => ?_, fun hv x hx => ?_⟩, by decide, by decide⟩
  · simp only [reorderQueue]
    rw [dif_pos hv]
  · rw [reorderQueue_valid s fromIdx toIdx hv x hx]
    refine ⟨rfl, ?_, rfl, rfl⟩
    have ht0 : 0 ≤ toIdx := by omega
    have htn : toIdx.toNat ≤ (s.queue.eraseIdx fromIdx.toNat).length := by
      rw [List.length_eraseIdx, if_pos (by omega)]
      omega
    show listGetI (spliceInsert (s.queue.eraseIdx fromIdx.toNat) toIdx.toNat x) toIdx = some x
    rw [listGetI_of_nonneg _ _ ht0]
    exact spliceInsert_getElem_self _ _ _ htn

/-! ### Claims C6 and C2 -/

theorem skipNext_last_not_one (s : PlayerState) (r : Nat) (res : Resolve)
    (hsh : s.isShuffled = false) (hone : s.repeatMode ≠ RepeatMode.one)
    (hne : s.queue ≠ []) (hcur : s.currentIndex = (s.queue.length : Int) - 1) :
    skipNext r res s =
      if s.repeatMode = RepeatMode.all then goToIndex (some 0) true res s
      else goToIndex none true res s := by
  have hlen : 0 < s.queue.length := List.length_pos.mpr hne
  unfold skipNext
  rw [if_neg (by omega)]
  rw [if_neg (by intro hc; exact hone hc.1)]
  dsimp only
  simp only [hsh, Bool.false_eq_true, false_and, if_false]
  rw [hcur, if_pos (by omega)]

theorem skipPrevious_first (s : PlayerState) (r : Nat) (res : Resolve)
    (hsh : s.isShuffled = false) (hne : s.queue ≠ [])
    (hcur : s.currentIndex = 0) :
    skipPrevious r res s =
      if s.repeatMode = RepeatMode.all then
        goToIndex (some ((s.queue.length : Int) - 1)) true res s
      else goToIndex none true res s := by
  have hlen : 0 < s.queue.length := List.length_pos.mpr hne
  unfold skipPrevious
  rw [if_neg (by omega)]
  dsimp only
  simp only [hsh, Bool.false_eq_true, if_false]
  rw [hcur, if_pos (by omega)]

/-- C6: with `repeatMode = all` and shuffle off, on a non-empty queue,
`skipNext` at the last position wraps the selection to index 0 (the current
track becomes the first queue element, possibly carrying a freshly resolved
preview reference, so its identity is that of the first element), and
`skipPrevious` at index 0 wraps to the last index. -/
theorem c6_repeat_all_wraparound (s : PlayerState) (r : Nat) (res : Resolve)
    (hsh : s.isShuffled = false) (hrm : s.repeatMode = RepeatMode.all)
    (hne : s.queue ≠ []) :
    (s.currentIndex = (s.queue.length : Int) - 1 →
      (skipNext r res s).currentIndex = 0 ∧
      ∃ x, listGetI s.queue 0 = some x ∧
        (skipNext r res s).currentTrack = some (enhanceModel x res) ∧
        (skipNext r res s).currentTrack.map Track.id = some x.id) ∧
    (s.currentIndex = 0 →
      (skipPrevious r res s).currentIndex = (s.queue.length : Int) - 1 ∧
      ∃ x, listGetI s.queue ((s.queue.length : Int) - 1) = some x ∧
        (skipPrevious r res s).currentTrack = some (enhanceModel x res)) := by
  have hlen : 0 < s.queue.length := List.length_pos.mpr hne
  constructor
  · intro hcur
    obtain ⟨x, hx⟩ := listGetI_isSome s.queue 0 le_rfl (by omega)
    have hstep : skipNext r res s = goToIndex (some 0) true res s := by
      rw [skipNext_last_not_one s r res hsh (by rw [hrm]; intro hc; cases hc) hne hcur]
      rw [if_pos hrm]
    rw [hstep, goToIndex_valid 0 true res s x le_rfl (by omega) hx]
    exact ⟨rfl, x, hx, by simp, by simp [enhanceModel_id]⟩
  · intro hcur
    obtain ⟨x, hx⟩ := listGetI_isSome s.queue ((s.queue.length : Int) - 1)
      (by omega) (by omega)
    have hstep : skipPrevious r res s =
        goToIndex (some ((s.queue.length : Int) - 1)) true res s := by
      rw [skipPrevious_first s r res hsh hne hcur]
      rw [if_pos hrm]
    rw [hstep, goToIndex_valid ((s.queue.length : Int) - 1) true res s x
      (by omega) (by omega) hx]
    exact ⟨rfl, x, hx, by simp⟩

/-- C6 witness: the wrap laws applied to the concrete two-track queue
[A, B] with repeat all, shuffle off. -/
theorem c6_repeat_all_wraparound_witness :
    ((skipNext 0 Resolve.keep { initState with
        queue := [trackA, trackB], currentIndex := 1, currentTrack := some trackB,
        repeatMode := RepeatMode.all }).currentIndex = 0 ∧
      ∃ x, listGetI [trackA, trackB] 0 = some x ∧
        (skipNext 0 Resolve.keep { initState with
          queue := [trackA, trackB], currentIndex := 1, currentTrack := some trackB,
          repeatMode := RepeatMode.all }).currentTrack = some (enhanceModel x Resolve.keep) ∧
        (skipNext 0 Resolve.keep { initState with
          queue := [trackA, trackB], currentIndex := 1, currentTrack := some trackB,
          repeatMode := RepeatMode.all }).currentTrack.map Track.id = some x.id) ∧
    ((skipPrevious 0 Resolve.keep { initState with
        queue := [trackA, trackB], currentIndex := 0, currentTrack := some trackA,
        repeatMode := RepeatMode.all }).currentIndex =
        (([trackA, trackB] : List Track).length : Int) - 1 ∧
      ∃ x, listGetI [trackA, trackB] ((([trackA, trackB] : List Track).length : Int) - 1) =
          some x ∧
        (skipPrevious 0 Resolve.keep { initState with
          queue := [trackA, trackB], currentIndex := 0, currentTrack := some trackA,
          repeatMode := RepeatMode.all }).currentTrack = some (enhanceModel x Resolve.keep)) := by
  constructor
  · exact (c6_repeat_all_wraparound { initState with
      queue := [trackA, trackB], currentIndex := 1, currentTrack := some trackB,
      repeatMode := RepeatMode.all } 0 Resolve.keep rfl rfl (by decide)).1 (by decide)
  · exact (c6_repeat_all_wraparound { initState with
      queue := [trackA, trackB], currentIndex := 0, currentTrack := some trackA,
      repeatMode := RepeatMode.all } 0 Resolve.keep rfl rfl (by decide)).2 rfl

/-- C2 (amended): with shuffle off, `repeatMode = off` and the current index
at the last position of a non-empty queue, `skipNext` only pauses: it sets
`isPlaying = false` and `progress = 0` and leaves everything else —
including `currentIndex` and `currentTrack` — unchanged.  The selection is
NOT cleared: `goToIndex(null)` returns after pausing without touching the
index or the track. -/
theorem c2_skipNext_end_of_queue_pauses (s : PlayerState) (r : Nat) (res : Resolve)
    (hsh : s.isShuffled = false) (hrm : s.repeatMode = RepeatMode.off)
    (hne : s.queue ≠ []) (hcur : s.currentIndex = (s.queue.length : Int) - 1) :
    skipNext r res s = { s with isPlaying := false, progress := 0 } := by
  rw [skipNext_last_not_one s r res hsh (by rw [hrm]; intro hc; cases hc) hne hcur]
  rw [if_neg (by rw [hrm]; intro hc; cases hc)]
  exact goToIndex_none true res s

/-- C2 witness: the amended statement applied to the concrete reachable-shape
state with queue [A, B] and current index 1. -/
theorem c2_skipNext_end_of_queue_pauses_witness :
    skipNext 0 Resolve.keep { initState with
        queue := [trackA, trackB], currentIndex := 1, currentTrack := some trackB,
        isPlaying := true, progress := 42 } =
      { { initState with
          queue := [trackA, trackB], currentIndex := 1, currentTrack := some trackB,
          isPlaying := true, progress := 42 } with isPlaying := false, progress := 0 } :=
  c2_skipNext_end_of_queue_pauses { initState with
      queue := [trackA, trackB], currentIndex := 1, currentTrack := some trackB,
      isPlaying := true, progress := 42 } 0 Resolve.keep rfl rfl (by decide) (by decide)

/-- C2 counterexample: a reachable state with queue [A, B], current index at
the last position, repeat off and shuffle off, on which `skipNext` does not
clear the selection: the resulting `currentIndex` is still 1 (not -1) and
the resulting `currentTrack` is still track B (not none). -/
theorem c2_counterexample :
    Reachable (skipNext 0 Resolve.keep
      (skipNext 0 Resolve.keep (enqueue trackB (playTrack trackA Resolve.keep initState)))) ∧
    (skipNext 0 Resolve.keep (enqueue trackB (playTrack trackA Resolve.keep
      initState))).currentIndex =
      (((skipNext 0 Resolve.keep (enqueue trackB (playTrack trackA Resolve.keep
        initState))).queue.length : Int)) - 1 ∧
    (skipNext 0 Resolve.keep (enqueue trackB (playTrack trackA Resolve.keep
      initState))).repeatMode = RepeatMode.off ∧
    (skipNext 0 Resolve.keep (enqueue trackB (playTrack trackA Resolve.keep
      initState))).isShuffled = false ∧
    (skipNext 0 Resolve.keep (skipNext 0 Resolve.keep (enqueue trackB
      (playTrack trackA Resolve.keep initState)))).currentIndex = 1 ∧
    (skipNext 0 Resolve.keep (skipNext 0 Resolve.keep (enqueue trackB
      (playTrack trackA Resolve.keep initState)))).currentTrack = some trackB ∧
    (skipNext 0 Resolve.keep (skipNext 0 Resolve.keep (enqueue trackB
      (playTrack trackA Resolve.keep initState)))).isPlaying = false := by
  refine ⟨?_, by decide, by decide, by decide, by decide, by decide, by decide⟩
  refine Relation.ReflTransGen.tail (Relation.ReflTransGen.tail
    (Relation.ReflTransGen.tail
      (Relation.ReflTransGen.single (Step.ofPlayTrack initState trackA Resolve.keep))
      (Step.ofEnqueue _ trackB))
    (Step.ofSkipNext _ 0 Resolve.keep (Or.inl (by decide))))
    (Step.ofSkipNext _ 0 Resolve.keep (Or.inl (by decide)))

/-! ### Claim C3 -/

/-- C3 (amended): when some queue entry has the given id, `removeFromQueue`
removes EVERY entry whose id equals `trackId` — not only the first — because
the new queue is computed with `filter(t => t.id !== trackId)`: the
resulting queue is exactly the id-filtered queue and no entry with the id
survives. -/
theorem c3_removeFromQueue_removes_every_match (tid : String) (res : Resolve)
    (s : PlayerState) (hex : ∃ t ∈ s.queue, t.id = tid) :
    (removeFromQueue tid res s).queue = s.queue.filter (fun t => !(t.id == tid)) ∧
    ∀ t ∈ (removeFromQueue tid res s).queue, t.id ≠ tid := by
  have hni : findIndexJs (fun t => t.id == tid) s.queue ≠ -1 := by
    intro hc
    rw [findIndexJs_eq_neg_one_iff] at hc
    obtain ⟨t, ht, hid⟩ := hex
    have := hc t ht
    simp [hid] at this
  have hq : (removeFromQueue tid res s).queue =
      s.queue.filter (fun t => !(t.id == tid)) := by
    simp only [removeFromQueue]
    rw [if_neg hni]
    rcases hsel : removeNextSel (findIndexJs (fun t => t.id == tid) s.queue)
        (List.filter (fun t => !(t.id == tid)) s.queue) s with ⟨ci, ct⟩
    rw [hsel]
    cases ct with
    | some nt => simp [loadTrack]
    | none => simp
  refine ⟨hq, fun t ht => ?_⟩
  rw [hq] at ht
  have := (List.mem_filter.mp ht).2
  simpa using this

/-- C3 witness: removing id "a" from the all-duplicate queue [A, A2] leaves
nothing with that id behind. -/
theorem c3_removeFromQueue_removes_every_match_witness :
    (∃ t ∈ (enqueue trackA2 (playTrack trackA Resolve.keep initState)).queue,
      t.id = "a") ∧
    (removeFromQueue "a" Resolve.keep
        (enqueue trackA2 (playTrack trackA Resolve.keep initState))).queue =
      (enqueue trackA2 (playTrack trackA Resolve.keep initState)).queue.filter
        (fun t => !(t.id == "a")) ∧
    ∀ t ∈ (removeFromQueue "a" Resolve.keep
        (enqueue trackA2 (playTrack trackA Resolve.keep initState))).queue,
      t.id ≠ "a" :=
  ⟨⟨trackA, by decide, rfl⟩,
    (c3_removeFromQueue_removes_every_match "a" Resolve.keep _
      ⟨trackA, by decide, rfl⟩).1,
    (c3_removeFromQueue_removes_every_match "a" Resolve.keep _
      ⟨trackA, by decide, rfl⟩).2⟩

/-- C3 counterexample: a reachable state whose queue is [A, A2], two entries
with the same id "a".  The claim predicts `removeFromQueue("a")` keeps the
later duplicate A2; the code removes both, leaving the empty queue. -/
theorem c3_counterexample :
    Reachable (enqueue trackA2 (playTrack trackA Resolve.keep initState)) ∧
    (enqueue trackA2 (playTrack trackA Resolve.keep initState)).queue =
      [trackA, trackA2] ∧
    trackA2.id = trackA.id ∧
    (removeFromQueue "a" Resolve.keep
      (enqueue trackA2 (playTrack trackA Resolve.keep initState))).queue = [] ∧
    trackA2 ∉ (removeFromQueue "a" Resolve.keep
      (enqueue trackA2 (playTrack trackA Resolve.keep initState))).queue := by
  refine ⟨?_, by decide, by decide, by decide, by decide⟩
  exact Relation.ReflTransGen.tail
    (Relation.ReflTransGen.single (Step.ofPlayTrack initState trackA Resolve.keep))
    (Step.ofEnqueue _ trackA2)

/-! ### Claim C4 -/

theorem simRun_succ_tick (n : Nat) (st : SimState) :
    simRun (n + 1) st = simTick (simRun n st) := by
  induction n generalizing st with
  | zero => rfl
  | succ n ih =>
    show simRun (n + 1) (simTick st) = simTick (simRun (n + 1) st)
    rw [ih (simTick st)]
    rfl

theorem simRun_le_99 (n : Nat) (hn : n ≤ 99) :
    simRun n (startSimulation 0 true) =
      { simulatedProgress := (n : Int), running := true, progress := (n : Int),
        isPlaying := true } := by
  induction n with
  | zero => simp [simRun, startSimulation]
  | succ n ih =>
    rw [simRun_succ_tick, ih (by omega)]
    unfold simTick
    rw [if_pos rfl]
    dsimp only
    rw [if_neg (by omega)]
    rfl

/-- C4 (amended): the synthetic clock started at progress 0 increments
progress by exactly 1 on every tick while running (after n ≤ 99 ticks the
published progress is exactly n and the clock is still running with
isPlaying untouched), and on the 100th tick — upon reaching 100 — it stops
itself and sets `isPlaying = false` and `progress = 0` without external
input.  (Reaching 100 takes 100 ticks of +1, not 25.) -/
theorem c4_synthetic_clock :
    (∀ n, n ≤ 99 → simRun n (startSimulation 0 true) =
      { simulatedProgress := (n : Int), running := true, progress := (n : Int),
        isPlaying := true }) ∧
    (∀ n, n < 99 → (simRun (n + 1) (startSimulation 0 true)).progress =
      (simRun n (startSimulation 0 true)).progress + 1) ∧
    (simRun 100 (startSimulation 0 true)).running = false ∧
    (simRun 100 (startSimulation 0 true)).isPlaying = false ∧
    (simRun 100 (startSimulation 0 true)).progress = 0 := by
  have h100 : simRun 100 (startSimulation 0 true) =
      { simulatedProgress := 100, running := false, progress := 0,
        isPlaying := false } := by
    have : (100 : Nat) = 99 + 1 := rfl
    rw [this, simRun_succ_tick, simRun_le_99 99 (by omega)]
    decide
  refine ⟨simRun_le_99, fun n hn => ?_, by rw [h100], by rw [h100], by rw [h100]⟩
  rw [simRun_le_99 n (by omega), simRun_le_99 (n + 1) (by omega)]
  push_cast
  ring

/-- C4 witness: the per-tick increment law applied after 5 ticks, and the
tick-5 snapshot. -/
theorem c4_synthetic_clock_witness :
    (5 : Nat) ≤ 99 ∧
    simRun 5 (startSimulation 0 true) =
      { simulatedProgress := 5, running := true, progress := 5, isPlaying := true } ∧
    (simRun 6 (startSimulation 0 true)).progress =
      (simRun 5 (startSimulation 0 true)).progress + 1 :=
  ⟨by omega, c4_synthetic_clock.1 5 (by omega), c4_synthetic_clock.2.1 5 (by omega)⟩

/-- C4 counterexample: after 25 ticks the clock has NOT reached 100: the
published progress is 25, the interval is still installed and isPlaying is
still true — contradicting "after 25 ticks, upon reaching 100, the clock
stops itself and sets isPlaying = false and progress = 0". -/
theorem c4_counterexample :
    (simRun 25 (startSimulation 0 true)).progress = 25 ∧
    (simRun 25 (startSimulation 0 true)).running = true ∧
    (simRun 25 (startSimulation 0 true)).isPlaying = true ∧
    (simRun 25 (startSimulation 0 true)).progress ≠ 100 := by
  refine ⟨?_, ?_, ?_, ?_⟩ <;> decide

/-! ### Claim C9 -/

/-- C9: in every reachable state the exposed `upNext` snapshot
(`queue.slice(currentIndex + 1)`) is the suffix of the queue strictly after
the current index; with nothing selected (`currentIndex = -1`) it is the
whole queue. -/
theorem c9_upNext_suffix (s : PlayerState) (h : Reachable s) :
    upNext s = s.queue.drop (s.currentIndex + 1).toNat ∧
    (s.currentIndex = -1 → upNext s = s.queue) := by
  have hge := currentIndex_ge_reachable s h
  constructor
  · unfold upNext jsSlice
    rw [if_neg (by omega)]
  · intro hz
    unfold upNext jsSlice
    rw [if_neg (by omega), hz]
    simp

/-- C9 witness: the suffix law applied to the reachable state with queue
[A, B] and current index 0, where `upNext` is [B]; and to the initial state,
where nothing is selected and `upNext` is the entire (empty) queue. -/
theorem c9_upNext_suffix_witness :
    upNext (enqueue trackB (playTrack trackA Resolve.keep initState)) =
      (enqueue trackB (playTrack trackA Resolve.keep initState)).queue.drop
        ((enqueue trackB (playTrack trackA Resolve.keep initState)).currentIndex + 1).toNat ∧
    upNext (enqueue trackB (playTrack trackA Resolve.keep initState)) = [trackB] ∧
    upNext initState = initState.queue := by
  have hreach : Reachable (enqueue trackB (playTrack trackA Resolve.keep initState)) :=
    Relation.ReflTransGen.tail
      (Relation.ReflTransGen.single (Step.ofPlayTrack initState trackA Resolve.keep))
      (Step.ofEnqueue _ trackB)
  refine ⟨(c9_upNext_suffix _ hreach).1, by decide,
    (c9_upNext_suffix initState Relation.ReflTransGen.refl).2 rfl⟩

/-! ### Claim C10 -/

/-- C10: when no queue entry has the given id, `removeFromQueue` leaves the
whole state unchanged and issues no playback-engine command (the early
return precedes every engine access). -/
theorem c10_removeFromQueue_no_match (tid : String) (res : Resolve) (s : PlayerState)
    (hno : ∀ t ∈ s.queue, t.id ≠ tid) :
    removeFromQueue tid res s = s ∧ removeFromQueueEngineEffects tid res s = [] := by
  have hni : findIndexJs (fun t => t.id == tid) s.queue = -1 := by
    rw [findIndexJs_eq_neg_one_iff]
    intro x hx
    simpa using hno x hx
  constructor
  · exact removeFromQueue_not_found tid res s hni
  · simp only [removeFromQueueEngineEffects]
    rw [if_pos hni]

/-- C10 witness: removing the absent id "z" from the reachable state with
queue [A, B] changes nothing and issues no engine command. -/
theorem c10_removeFromQueue_no_match_witness :
    (∀ t ∈ (enqueue trackB (playTrack trackA Resolve.keep initState)).queue,
      t.id ≠ "z") ∧
    removeFromQueue "z" Resolve.keep
        (enqueue trackB (playTrack trackA Resolve.keep initState)) =
      enqueue trackB (playTrack trackA Resolve.keep initState) ∧
    removeFromQueueEngineEffects "z" Resolve.keep
      (enqueue trackB (playTrack trackA Resolve.keep initState)) = [] :=
  ⟨by decide,
    (c10_removeFromQueue_no_match "z" Resolve.keep _ (by decide)).1,
    (c10_removeFromQueue_no_match "z" Resolve.keep _ (by decide)).2⟩

/-! ### Claim C1 -/

/-- C1 (amended): along runs in which `enqueue`/`enqueueNext` never insert a
track whose id already occurs in the queue, every reachable state satisfies
the pointer invariant: `currentIndex = -1` exactly when `currentTrack` is
none, and a non-sentinel index is in bounds with
`queue[currentIndex].id = currentTrack.id`.  (With duplicate ids the
invariant fails on the code — see the counterexample — because
`removeFromQueue` filters out every entry with the id while rebasing the
index as if only one entry had been removed.) -/
theorem c1_invariant_no_duplicate_ids (s : PlayerState) (h : ReachableU s) :
    (s.currentIndex = -1 ↔ s.currentTrack = none) ∧
    (s.currentIndex ≠ -1 →
      0 ≤ s.currentIndex ∧ s.currentIndex < (s.queue.length : Int) ∧
      ∃ c q, s.currentTrack = some c ∧ listGetI s.queue s.currentIndex = some q ∧
        q.id = c.id) := by
  have hi := invS_reachableU s h
  refine ⟨⟨fun hz => (hi.2.1 hz).2, fun hz => ?_⟩, hi.2.2⟩
  by_contra hc
  obtain ⟨_, _, c, q, htr, _, _⟩ := hi.2.2 hc
  rw [htr] at hz
  cases hz

/-- C1 witness: the invariant applied to the duplicate-free two-step run
playTrack A; enqueue B. -/
theorem c1_invariant_no_duplicate_ids_witness :
    ReachableU (enqueue trackB (playTrack trackA Resolve.keep initState)) ∧
    ((enqueue trackB (playTrack trackA Resolve.keep initState)).currentIndex = -1 ↔
      (enqueue trackB (playTrack trackA Resolve.keep initState)).currentTrack = none) ∧
    ((enqueue trackB (playTrack trackA Resolve.keep initState)).currentIndex ≠ -1 →
      0 ≤ (enqueue trackB (playTrack trackA Resolve.keep initState)).currentIndex ∧
      (enqueue trackB (playTrack trackA Resolve.keep initState)).currentIndex <
        ((enqueue trackB (playTrack trackA Resolve.keep initState)).queue.length : Int) ∧
      ∃ c q, (enqueue trackB (playTrack trackA Resolve.keep initState)).currentTrack =
          some c ∧
        listGetI (enqueue trackB (playTrack trackA Resolve.keep initState)).queue
          (enqueue trackB (playTrack trackA Resolve.keep initState)).currentIndex =
          some q ∧ q.id = c.id) := by
  have hreach : ReachableU (enqueue trackB (playTrack trackA Resolve.keep initState)) :=
    Relation.ReflTransGen.tail
      (Relation.ReflTransGen.single (StepU.ofPlayTrack initState trackA Resolve.keep))
      (StepU.ofEnqueue _ trackB (by decide))
  exact ⟨hreach, (c1_invariant_no_duplicate_ids _ hreach).1,
    (c1_invariant_no_duplicate_ids _ hreach).2⟩

/-- C1 counterexample: the run playTrack A; enqueue B; enqueue A (a second
entry with id "a"); playFromQueue 2; removeFromQueue "a" reaches a state —
queue [B], currentIndex 1, currentTrack none — that violates the claimed
invariant in both directions: the index is not -1 while the track is none,
and the index is not below the queue length. -/
theorem c1_counterexample :
    Reachable (removeFromQueue "a" Resolve.keep (playFromQueue 2 Resolve.keep
      (enqueue trackA (enqueue trackB (playTrack trackA Resolve.keep initState))))) ∧
    (removeFromQueue "a" Resolve.keep (playFromQueue 2 Resolve.keep
      (enqueue trackA (enqueue trackB (playTrack trackA Resolve.keep
        initState))))).currentIndex = 1 ∧
    (removeFromQueue "a" Resolve.keep (playFromQueue 2 Resolve.keep
      (enqueue trackA (enqueue trackB (playTrack trackA Resolve.keep
        initState))))).currentTrack = none ∧
    ¬((removeFromQueue "a" Resolve.keep (playFromQueue 2 Resolve.keep
      (enqueue trackA (enqueue trackB (playTrack trackA Resolve.keep
        initState))))).currentIndex <
      ((removeFromQueue "a" Resolve.keep (playFromQueue 2 Resolve.keep
        (enqueue trackA (enqueue trackB (playTrack trackA Resolve.keep
          initState))))).queue.length : Int)) := by
  refine ⟨?_, by decide, by decide, by decide⟩
  refine Relation.ReflTransGen.tail (Relation.ReflTransGen.tail
    (Relation.ReflTransGen.tail (Relation.ReflTransGen.tail
      (Relation.ReflTransGen.single (Step.ofPlayTrack initState trackA Resolve.keep))
      (Step.ofEnqueue _ trackB))
    (Step.ofEnqueue _ trackA))
    (Step.ofPlayFromQueue _ 2 Resolve.keep))
    (Step.ofRemoveFromQueue _ "a" Resolve.keep)

/-! ### Claim C7 -/

/-- C7 (amended): in every reachable state (seek only invoked with positions
in [0, 100]) the progress lies in [0, 100]; and every exposed operation
OTHER THAN `enqueue`/`enqueueNext` that results in a different current
track leaves progress exactly 0 — the operations not listed here with a
track-change hypothesis never change the current track at all.
(`enqueue`/`enqueueNext` can change the current track from none to the
inserted track while leaving a non-zero progress untouched — see the
counterexample.) -/
theorem c7_progress_policy :
    (∀ s, Reachable s → 0 ≤ s.progress ∧ s.progress ≤ 100) ∧
    (∀ t res s, (playTrack t res s).currentTrack ≠ s.currentTrack →
      (playTrack t res s).progress = 0) ∧
    (∀ s, (togglePlay s).currentTrack = s.currentTrack) ∧
    (∀ r res s, (skipNext r res s).currentTrack ≠ s.currentTrack →
      (skipNext r res s).progress = 0) ∧
    (∀ r res s, (skipPrevious r res s).currentTrack ≠ s.currentTrack →
      (skipPrevious r res s).progress = 0) ∧
    (∀ i res s, (playFromQueue i res s).progress = 0) ∧
    (∀ tid res s, (removeFromQueue tid res s).currentTrack ≠ s.currentTrack →
      (removeFromQueue tid res s).progress = 0) ∧
    (∀ fromIdx toIdx s, (reorderQueue fromIdx toIdx s).currentTrack =
      s.currentTrack) ∧
    (∀ s, (clearQueue s).progress = 0 ∧ (closePlayer s).progress = 0) ∧
    (∀ p s, (seek p s).currentTrack = s.currentTrack) ∧
    (∀ v s, (setVolume v s).currentTrack = s.currentTrack) ∧
    (∀ s, (toggleShuffle s).currentTrack = s.currentTrack ∧
      (toggleRepeat s).currentTrack = s.currentTrack ∧
      (toggleMinimize s).currentTrack = s.currentTrack ∧
      (openQueuePanel s).currentTrack = s.currentTrack ∧
      (closeQueuePanel s).currentTrack = s.currentTrack ∧
      (toggleQueuePanel s).currentTrack = s.currentTrack) := by
  refine ⟨progress_bounds_reachable, ?_, togglePlay_currentTrack, ?_, ?_,
    fun i res s => goToIndex_progress (some i) true res s, ?_,
    reorderQueue_currentTrack, fun s => ⟨rfl, rfl⟩, fun p s => rfl, fun v s => rfl,
    fun s => ⟨rfl, rfl, rfl, rfl, rfl, rfl⟩⟩
  · intro t res s hne
    rcases playTrack_cases t res s with hc | hc
    · exact hc
    · rw [hc, togglePlay_currentTrack] at hne
      exact absurd rfl hne
  · intro r res s hne
    exact progress_zero_of_cases (skipNext_cases r res s) hne
  · intro r res s hne
    exact progress_zero_of_cases (skipPrevious_cases r res s) hne
  · intro tid res s hne
    exact progress_zero_of_cases (removeFromQueue_cases tid res s) hne

/-- C7 witness: the bounds applied to the initial state, and the reset law
applied to a concrete `skipNext` that changes the current track. -/
theorem c7_progress_policy_witness :
    (0 ≤ initState.progress ∧ initState.progress ≤ 100) ∧
    (skipNext 0 Resolve.keep (enqueue trackB (playTrack trackA Resolve.keep
      initState))).currentTrack ≠
      (enqueue trackB (playTrack trackA Resolve.keep initState)).currentTrack ∧
    (skipNext 0 Resolve.keep (enqueue trackB (playTrack trackA Resolve.keep
      initState))).progress = 0 :=
  ⟨c7_progress_policy.1 initState Relation.ReflTransGen.refl, by decide,
    c7_progress_policy.2.2.2.1 0 Resolve.keep
      (enqueue trackB (playTrack trackA Resolve.keep initState)) (by decide)⟩

/-- C7 counterexample: from the initial state, seek(50) (within [0, 100])
then enqueue(A) reaches a state by exposed operations in which the enqueue
changed the current track (none to A) while progress stayed 50 ≠ 0. -/
theorem c7_counterexample :
    Reachable (enqueue trackA (seek 50 initState)) ∧
    Step (seek 50 initState) (enqueue trackA (seek 50 initState)) ∧
    (enqueue trackA (seek 50 initState)).currentTrack ≠
      (seek 50 initState).currentTrack ∧
    (enqueue trackA (seek 50 initState)).progress = 50 ∧
    (enqueue trackA (seek 50 initState)).progress ≠ 0 := by
  refine ⟨?_, Step.ofEnqueue _ trackA, by decide, by decide, by decide⟩
  exact Relation.ReflTransGen.tail
    (Relation.ReflTransGen.single (Step.ofSeek initState 50 (by decide)))
    (Step.ofEnqueue _ trackA)

/-- C5 witness: the no-op law applied to out-of-bounds indices (0, 5) and
the relocation law applied to the concrete reorder (0, 2), both on the
queue [A, B, C] with current index 1. -/
theorem c5_reorderQueue_spec_witness :
    reorderQueue 0 5 { initState with
        queue := [trackA, trackB, trackC], currentIndex := 1,
        currentTrack := some trackB } =
      { initState with
        queue := [trackA, trackB, trackC], currentIndex := 1,
        currentTrack := some trackB } ∧
    (reorderQueue 0 2 { initState with
        queue := [trackA, trackB, trackC], currentIndex := 1,
        currentTrack := some trackB }).queue =
      spliceInsert ((({ initState with
          queue := [trackA, trackB, trackC], currentIndex := 1,
          currentTrack := some trackB } : PlayerState)).queue.eraseIdx
        (Int.toNat 0)) (Int.toNat 2) trackA := by
  constructor
  · exact (c5_reorderQueue_spec.1 _ 0 5).1 (by decide)
  · exact ((c5_reorderQueue_spec.1 _ 0 2).2 (by decide) trackA (by decide)).1

end SpotifyClone
